import Mathlib

/-!
# Quad intersector dispatchers (`quadv_intersector_moeller.h`)

A shallow embedding of the two dispatcher structs of
`src/thirdparty/embree/kernels/geometry/quadv_intersector_moeller.h`:

* `QuadMvIntersector1MoellerTrumbore` : one ray against the `M` quads of a primitive, and the
  array-of-rays loop that walks the set bits of a `size_t` mask;
* `QuadMvIntersectorKMoellerTrumbore` : a packet of `K` rays against the quads of a primitive,
  one quad lane at a time, for closest-hit (`intersect`) and for occlusion (`occluded`).

Conventions of the embedding.

* The precalculation engine (`pre.intersect`, `pre.intersectK`), the epilogs it runs, the
  validity predicate `quad.valid(i)` and `max_size()` live in headers that are not part of the
  translated file. They are parameters of every definition, so each theorem holds for every
  behaviour of these collaborators.
* `size_t` masks are natural numbers. The loop only ever computes `valid & (valid - 1)` and
  `1 << i` for a set bit `i` of `valid`, neither of which leaves the range of the mask type for a
  non-zero mask, so no reduction modulo `2 ^ 64` is involved.
* `tfar` is a `float` in the source. Its values are taken from an arbitrary linearly ordered type
  `F`; the only operation the dispatcher applies to it is the comparison `<`.
* `Ray** rays` is an array of pointers to pairwise distinct ray objects: the array is a function
  from the index to the ray stored there. The context, the scene and `geomID_to_instID` are passed
  through unchanged and are part of the engine parameter.
* The `STAT3` statistics counters do not influence any result and are left out.
* A call log is threaded through each loop as ghost state. It records which collaborator calls
  were made, in order; no value computed by the code depends on it.
-/

namespace embree

/-! ## Bit scan over a `size_t` mask -/

/-- Scan `v` from bit 0 upwards for at most `fuel` bits and return the index of the first set
bit. -/
def bsfScan : Nat → Nat → Nat
  | 0, _ => 0
  | fuel + 1, v => if v % 2 = 1 then 0 else bsfScan fuel (v / 2) + 1

/-- Modelled from the spec: the intrinsic `__bsf` is declared outside the translated file. It is
the bit scan forward behind "bit-scan-based lane iteration over a validity mask": the index of the
lowest set bit of `v`. A number `v` has fewer than `v` binary digits, so scanning `v` bits always
reaches the lowest set bit of a non-zero `v`. The source leaves `__bsf 0` unspecified; here it is
`0`, and no theorem below relies on that value. -/
def __bsf (v : Nat) : Nat := bsfScan v v

/-- Modelled from the spec: the intrinsic `__bscf` ("bit scan and clear forward") is declared
outside the translated file. It returns the index of the lowest set bit of `v` and clears that bit
in place (`v &= v - 1`), which is what makes the loop "visit only currently-valid lanes, in
ascending index order". The pair is (returned index, new value of `v`). -/
def __bscf (v : Nat) : Nat × Nat := (__bsf v, v &&& (v - 1))

/-- Number of set bits of a mask (`popcnt`): the sum of the binary digits. -/
def popcnt (v : Nat) : Nat := (Nat.digits 2 v).sum

/-! ## Data model -/

/-- A ray: the current nearest distance `tfar` and everything else it carries (origin, direction,
`tnear`, and the hit payload `Ng`, `u`, `v`, `geomID`, `primID`, `instID`). -/
structure Ray (F P : Type) where
  tfar : F
  hit : P

/-- A batch `QuadMv<M>` of quads in structure-of-arrays form: lane `i` holds the four vertices of
quad `i` and its two identifiers. -/
structure QuadMv (V : Type) where
  v0 : Nat → V
  v1 : Nat → V
  v2 : Nat → V
  v3 : Nat → V
  geomIDs : Nat → Nat
  primIDs : Nat → Nat

namespace QuadMvIntersector1MoellerTrumbore

/-- State of the array-of-rays loop: the result mask built so far, the rays, and the ghost log
(the ray indices taken from the mask, and the `(ray index, primitive index)` pairs handed to the
single-ray `intersect`). -/
structure ArrayState (F P : Type) where
  valid_isec : Nat
  rays : Nat → Ray F P
  visited : List Nat
  calls : List (Nat × Nat)

variable {F P V Pre : Type}

/-- Single-ray `intersect` (source lines 34-38): forwards the ray and the fields of the quad batch
to `pre.intersect`, which is the parameter `preIntersect`. -/
def intersect
    (preIntersect : Pre → Ray F P → (Nat → V) → (Nat → V) → (Nat → V) → (Nat → V) →
      (Nat → Nat) → (Nat → Nat) → Ray F P)
    (pre : Pre) (ray : Ray F P) (quad : QuadMv V) : Ray F P :=
  preIntersect pre ray quad.v0 quad.v1 quad.v2 quad.v3 quad.geomIDs quad.primIDs

/-- The inner loop `for (size_t n=0; n<num; n++) intersect(pre[i],*rays[i],...,prim[n],...)`
(source lines 54-55) for ray index `i`. The first argument is the number of iterations left,
the second the counter `n`; the loop is entered with `num` and `0`. -/
def intersectPrims
    (preIntersect : Pre → Ray F P → (Nat → V) → (Nat → V) → (Nat → V) → (Nat → V) →
      (Nat → Nat) → (Nat → Nat) → Ray F P)
    (pre_i : Pre) (prim : Nat → QuadMv V) (i : Nat) :
    Nat → Nat → Ray F P × List (Nat × Nat) → Ray F P × List (Nat × Nat)
  | 0, _, s => s
  | left + 1, n, (ray, calls) =>
    intersectPrims preIntersect pre_i prim i left (n + 1)
      (intersect preIntersect pre_i ray (prim n), calls ++ [(i, n)])

/-- Body of the do-while loop for the ray index `i` just taken from the mask (source lines
53-56): remember `tfar`, intersect the ray with every primitive, and set bit `i` of `valid_isec`
when `tfar` became strictly smaller. -/
def rayBody [LinearOrder F]
    (preIntersect : Pre → Ray F P → (Nat → V) → (Nat → V) → (Nat → V) → (Nat → V) →
      (Nat → Nat) → (Nat → Nat) → Ray F P)
    (pre : Nat → Pre) (prim : Nat → QuadMv V) (num : Nat)
    (i : Nat) (st : ArrayState F P) : ArrayState F P :=
  let old_far := (st.rays i).tfar
  let r := intersectPrims preIntersect (pre i) prim i num 0 (st.rays i, st.calls)
  { valid_isec := st.valid_isec ||| (if r.1.tfar < old_far then 1 <<< i else 0)
    rays := Function.update st.rays i r.1
    visited := st.visited ++ [i]
    calls := r.2 }

/-- The `do { ... } while (valid)` loop of the array form (source lines 51-57). The body runs
before `valid` is tested, as in the source. -/
def intersectRays [LinearOrder F]
    (preIntersect : Pre → Ray F P → (Nat → V) → (Nat → V) → (Nat → V) → (Nat → V) →
      (Nat → Nat) → (Nat → Nat) → Ray F P)
    (pre : Nat → Pre) (prim : Nat → QuadMv V) (num : Nat)
    (valid : Nat) (st : ArrayState F P) : ArrayState F P :=
  let i := (__bscf valid).1
  let valid1 := (__bscf valid).2
  let st1 := rayBody preIntersect pre prim num i st
  if valid1 = 0 then st1
  else intersectRays preIntersect pre prim num valid1 st1
termination_by valid
decreasing_by
  rename_i h
  have h1 : valid &&& (valid - 1) ≠ 0 := h
  have h0 : valid ≠ 0 := by
    rintro rfl
    simp at h1
  exact lt_of_le_of_lt Nat.and_le_right (by omega)

/-- Array-of-rays `intersect` (source lines 48-59): `valid_isec = 0`, then the do-while loop. The
returned `size_t` is the field `valid_isec`; the field `rays` is the ray array after the call. -/
def intersectN [LinearOrder F]
    (preIntersect : Pre → Ray F P → (Nat → V) → (Nat → V) → (Nat → V) → (Nat → V) →
      (Nat → Nat) → (Nat → Nat) → Ray F P)
    (pre : Nat → Pre) (valid : Nat) (rays : Nat → Ray F P)
    (prim : Nat → QuadMv V) (num : Nat) : ArrayState F P :=
  intersectRays preIntersect pre prim num valid
    { valid_isec := 0, rays := rays, visited := [], calls := [] }

/-- The rest of the do-while loop once the body has run: `while (valid) { body }`. -/
def whileValid [LinearOrder F]
    (preIntersect : Pre → Ray F P → (Nat → V) → (Nat → V) → (Nat → V) → (Nat → V) →
      (Nat → Nat) → (Nat → Nat) → Ray F P)
    (pre : Nat → Pre) (prim : Nat → QuadMv V) (num : Nat)
    (valid : Nat) (st : ArrayState F P) : ArrayState F P :=
  if valid = 0 then st else intersectRays preIntersect pre prim num valid st

/-- The single-ray `intersect` folded over `prim[0], ..., prim[num-1]`, in this order. -/
def foldPrims
    (preIntersect : Pre → Ray F P → (Nat → V) → (Nat → V) → (Nat → V) → (Nat → V) →
      (Nat → Nat) → (Nat → Nat) → Ray F P)
    (pre_i : Pre) (prim : Nat → QuadMv V) (num : Nat) (ray : Ray F P) : Ray F P :=
  (List.range num).foldl (fun r n => intersect preIntersect pre_i r (prim n)) ray

end QuadMvIntersector1MoellerTrumbore

namespace QuadMvIntersectorKMoellerTrumbore

/-- State of the packet closest-hit loop: the precalculations and the ray packet (both passed by
mutable reference), and the ghost log of the quad lanes handed to `intersectK`. -/
structure PacketState (Pre RayK : Type) where
  pre : Pre
  ray : RayK
  calls : List Nat

/-- State of the packet occlusion loop: the working mask `valid0` (a `vbool<K>`, one flag per ray
lane), the precalculations and the ray packet. -/
structure OccludedState (K : Nat) (Pre RayK : Type) where
  valid0 : Fin K → Bool
  pre : Pre
  ray : RayK

/-- Ghost log entry of the occlusion loop: the quad lane handed to `intersectK`, and the working
mask `valid0` right before and right after that call. -/
structure OccludedCall (K : Nat) where
  index : Nat
  before : Fin K → Bool
  after : Fin K → Bool

/-- What packet `occluded` hands back: the returned mask `!valid0`, the precalculations and the
ray packet after the call, and the ghost log. -/
structure OccludedResult (K : Nat) (Pre RayK : Type) where
  ret : Fin K → Bool
  pre : Pre
  ray : RayK
  log : List (OccludedCall K)

variable {K : Nat} {V Pre RayK : Type}

/-- The loop of packet `intersect` (source lines 73-82). The first argument is the number of
iterations left before `i` reaches `max_size()`, the second the counter `i`. `qvalid quad i` is
`quad.valid(i)`; `intersectK` is `pre.intersectK` together with the `IntersectKEpilogM` built
from the ray packet, the identifiers of the batch and the lane `i`. Its result is discarded. -/
def intersectLanes
    (qvalid : QuadMv V → Nat → Bool)
    (intersectK : (Fin K → Bool) → V → V → V → V → (Nat → Nat) → (Nat → Nat) → Nat →
      Pre × RayK → Pre × RayK)
    (valid_i : Fin K → Bool) (quad : QuadMv V) :
    Nat → Nat → PacketState Pre RayK → PacketState Pre RayK
  | 0, _, st => st
  | left + 1, i, st =>
    if !qvalid quad i then st
    else
      let s := intersectK valid_i (quad.v0 i) (quad.v1 i) (quad.v2 i) (quad.v3 i)
        quad.geomIDs quad.primIDs i (st.pre, st.ray)
      intersectLanes qvalid intersectK valid_i quad left (i + 1)
        { pre := s.1, ray := s.2, calls := st.calls ++ [i] }

/-- Packet `intersect` (source lines 71-83); `M` is `QuadMv<M>::max_size()`. -/
def intersect (M : Nat)
    (qvalid : QuadMv V → Nat → Bool)
    (intersectK : (Fin K → Bool) → V → V → V → V → (Nat → Nat) → (Nat → Nat) → Nat →
      Pre × RayK → Pre × RayK)
    (valid_i : Fin K → Bool) (pre : Pre) (ray : RayK) (quad : QuadMv V) :
    PacketState Pre RayK :=
  intersectLanes qvalid intersectK valid_i quad M 0 { pre := pre, ray := ray, calls := [] }

/-- The loop of packet `occluded` (source lines 90-100). `intersectK` is `pre.intersectK` together
with the `OccludedKEpilogM` built from `valid0`, the ray packet, the identifiers of the batch and
the lane `i`: it reads `valid0`, may change `valid0`, the precalculations and the ray packet
(through the epilog), and returns a flag; a true flag leaves the loop. -/
def occludedLanes
    (qvalid : QuadMv V → Nat → Bool)
    (intersectK : V → V → V → V → (Nat → Nat) → (Nat → Nat) → Nat →
      OccludedState K Pre RayK → OccludedState K Pre RayK × Bool)
    (quad : QuadMv V) :
    Nat → Nat → OccludedState K Pre RayK × List (OccludedCall K) →
      OccludedState K Pre RayK × List (OccludedCall K)
  | 0, _, s => s
  | left + 1, i, (st, log) =>
    if !qvalid quad i then (st, log)
    else
      let r := intersectK (quad.v0 i) (quad.v1 i) (quad.v2 i) (quad.v3 i)
        quad.geomIDs quad.primIDs i st
      let log1 := log ++ [{ index := i, before := st.valid0, after := r.1.valid0 }]
      if r.2 then (r.1, log1)
      else occludedLanes qvalid intersectK quad left (i + 1) (r.1, log1)

/-- Packet `occluded` (source lines 86-102): `valid0 = valid_i`, the loop, `return !valid0`. -/
def occluded (M : Nat)
    (qvalid : QuadMv V → Nat → Bool)
    (intersectK : V → V → V → V → (Nat → Nat) → (Nat → Nat) → Nat →
      OccludedState K Pre RayK → OccludedState K Pre RayK × Bool)
    (valid_i : Fin K → Bool) (pre : Pre) (ray : RayK) (quad : QuadMv V) :
    OccludedResult K Pre RayK :=
  let r := occludedLanes qvalid intersectK quad M 0
    ({ valid0 := valid_i, pre := pre, ray := ray }, [])
  { ret := fun k => !r.1.valid0 k, pre := r.1.pre, ray := r.1.ray, log := r.2 }

/-- The loop of `occludedLanes` with the `break` on a true `intersectK` result removed: every
quad lane up to the first invalid one is tested. It exists only to be compared with
`occludedLanes`. -/
def occludedLanesNoBreak
    (qvalid : QuadMv V → Nat → Bool)
    (intersectK : V → V → V → V → (Nat → Nat) → (Nat → Nat) → Nat →
      OccludedState K Pre RayK → OccludedState K Pre RayK × Bool)
    (quad : QuadMv V) :
    Nat → Nat → OccludedState K Pre RayK × List (OccludedCall K) →
      OccludedState K Pre RayK × List (OccludedCall K)
  | 0, _, s => s
  | left + 1, i, (st, log) =>
    if !qvalid quad i then (st, log)
    else
      let r := intersectK (quad.v0 i) (quad.v1 i) (quad.v2 i) (quad.v3 i)
        quad.geomIDs quad.primIDs i st
      let log1 := log ++ [{ index := i, before := st.valid0, after := r.1.valid0 }]
      occludedLanesNoBreak qvalid intersectK quad left (i + 1) (r.1, log1)

/-- Packet `occluded` with the early exit removed (see `occludedLanesNoBreak`). -/
def occludedNoBreak (M : Nat)
    (qvalid : QuadMv V → Nat → Bool)
    (intersectK : V → V → V → V → (Nat → Nat) → (Nat → Nat) → Nat →
      OccludedState K Pre RayK → OccludedState K Pre RayK × Bool)
    (valid_i : Fin K → Bool) (pre : Pre) (ray : RayK) (quad : QuadMv V) :
    OccludedResult K Pre RayK :=
  let r := occludedLanesNoBreak qvalid intersectK quad M 0
    ({ valid0 := valid_i, pre := pre, ray := ray }, [])
  { ret := fun k => !r.1.valid0 k, pre := r.1.pre, ray := r.1.ray, log := r.2 }

end QuadMvIntersectorKMoellerTrumbore

/-! ## Sample inputs -/

namespace Sample

/-- A batch of quads without geometry: every vertex is the unit value, every identifier `0`. -/
def quad : QuadMv Unit :=
  { v0 := fun _ => (), v1 := fun _ => (), v2 := fun _ => (), v3 := fun _ => (),
    geomIDs := fun _ => 0, primIDs := fun _ => 0 }

/-- A single-ray engine whose epilog accepts, at every call, a hit one unit closer than the
current `tfar`. -/
def closer (_ : Unit) (ray : Ray Int Unit) (_ _ _ _ : Nat → Unit) (_ _ : Nat → Nat) :
    Ray Int Unit :=
  { tfar := ray.tfar - 1, hit := ray.hit }

/-- A single-ray engine whose epilog rejects every candidate: the ray comes back as it was. -/
def reject (_ : Unit) (ray : Ray Int Unit) (_ _ _ _ : Nat → Unit) (_ _ : Nat → Nat) :
    Ray Int Unit :=
  ray

/-- Rays that all start with `tfar = 10`. -/
def rays (_ : Nat) : Ray Int Unit := { tfar := 10, hit := () }

/-- The precalculations of the array form: nothing to store. -/
def pres (_ : Nat) : Unit := ()

/-- Primitives of the array form: the same batch at every index. -/
def prims (_ : Nat) : QuadMv Unit := quad

/-- A validity predicate that is not prefix-closed: lane 1 is invalid, every other lane valid. -/
def gapValid (_ : QuadMv Unit) (i : Nat) : Bool := i != 1

/-- Every lane valid. -/
def allValid (_ : QuadMv Unit) (_ : Nat) : Bool := true

/-- No lane valid. -/
def noneValid (_ : QuadMv Unit) (_ : Nat) : Bool := false

/-- A packet engine for closest-hit whose epilog rejects everything; the ray packet is a number. -/
def rejectK (_ : Fin 2 → Bool) (_ _ _ _ : Unit) (_ _ : Nat → Nat) (_ : Nat)
    (s : Unit × Nat) : Unit × Nat :=
  s

/-- A packet engine for closest-hit that records every call in the ray packet: the packet is a
number and each call adds one to it. -/
def countK (_ : Fin 2 → Bool) (_ _ _ _ : Unit) (_ _ : Nat → Nat) (_ : Nat)
    (s : Unit × Nat) : Unit × Nat :=
  (s.1, s.2 + 1)

/-- A packet engine for occlusion that never finds a hit: `valid0` stays as it is and the
returned flag is false. -/
def missK (_ _ _ _ : Unit) (_ _ : Nat → Nat) (_ : Nat)
    (st : QuadMvIntersectorKMoellerTrumbore.OccludedState 2 Unit Unit) :
    QuadMvIntersectorKMoellerTrumbore.OccludedState 2 Unit Unit × Bool :=
  (st, false)

/-- A packet engine for occlusion whose epilog accepts a hit for every lane: `valid0` is cleared
and the returned flag is true. -/
def hitK (_ _ _ _ : Unit) (_ _ : Nat → Nat) (_ : Nat)
    (st : QuadMvIntersectorKMoellerTrumbore.OccludedState 2 Unit Unit) :
    QuadMvIntersectorKMoellerTrumbore.OccludedState 2 Unit Unit × Bool :=
  ({ valid0 := fun _ => false, pre := st.pre, ray := st.ray }, true)

/-- A packet mask with lane 0 active and lane 1 inactive. -/
def lane0 (k : Fin 2) : Bool := decide (k = 0)

end Sample

/-! ## Lemmas on the bit scan -/

theorem bsfScan_spec (fuel v : Nat) (hv : v ≠ 0) (hf : v < 2 ^ fuel) :
    v.testBit (bsfScan fuel v) = true ∧ ∀ j, j < bsfScan fuel v → v.testBit j = false := by
  induction fuel generalizing v with
  | zero => simp at hf; omega
  | succ f ih =>
    unfold bsfScan
    by_cases h1 : v % 2 = 1
    · simp [h1]
    · simp only [h1, if_false]
      have hv2 : v / 2 ≠ 0 := by omega
      have hf2 : v / 2 < 2 ^ f := by
        rw [pow_succ] at hf; omega
      obtain ⟨a, b⟩ := ih (v / 2) hv2 hf2
      refine ⟨by rw [Nat.testBit_succ]; exact a, ?_⟩
      intro j hj
      cases j with
      | zero => simp [h1]
      | succ j => rw [Nat.testBit_succ]; exact b j (by omega)

theorem bsfScan_clear (fuel v : Nat) (hv : v ≠ 0) (hf : v < 2 ^ fuel) (j : Nat) :
    (v &&& (v - 1)).testBit j = (v.testBit j && decide (j ≠ bsfScan fuel v)) := by
  induction fuel generalizing v j with
  | zero => simp at hf; omega
  | succ f ih =>
    unfold bsfScan
    rw [Nat.testBit_and]
    by_cases h1 : v % 2 = 1
    · simp only [h1, if_true]
      cases j with
      | zero =>
        have : (v - 1) % 2 = 0 := by omega
        simp [Nat.testBit_zero, this]
      | succ j =>
        have : (v - 1) / 2 = v / 2 := by omega
        simp [Nat.testBit_succ, this]
    · simp only [h1, if_false]
      have hv2 : v / 2 ≠ 0 := by omega
      have hf2 : v / 2 < 2 ^ f := by
        rw [pow_succ] at hf; omega
      cases j with
      | zero => simp [Nat.testBit_zero, h1]
      | succ j =>
        have : (v - 1) / 2 = v / 2 - 1 := by omega
        rw [Nat.testBit_succ, Nat.testBit_succ, this, ← Nat.testBit_and, ih (v / 2) hv2 hf2 j]
        simp

/-- The index returned by `__bsf` is a set bit of a non-zero mask. -/
theorem bsf_testBit (v : Nat) (hv : v ≠ 0) : v.testBit (__bsf v) = true :=
  (bsfScan_spec v v hv (Nat.lt_two_pow v)).1

/-- No bit below the index returned by `__bsf` is set. -/
theorem bsf_min (v : Nat) (hv : v ≠ 0) (j : Nat) (hj : j < __bsf v) : v.testBit j = false :=
  (bsfScan_spec v v hv (Nat.lt_two_pow v)).2 j hj

/-- The intrinsic `__bscf` clears exactly the bit whose index it returns. -/
theorem bscf_testBit (v : Nat) (hv : v ≠ 0) (j : Nat) :
    (__bscf v).2.testBit j = (v.testBit j && decide (j ≠ (__bscf v).1)) :=
  bsfScan_clear v v hv (Nat.lt_two_pow v) j

theorem popcnt_step (v : Nat) : popcnt v = v % 2 + popcnt (v / 2) := by
  unfold popcnt
  rcases Nat.eq_zero_or_pos v with h | h
  · subst h; simp
  · rw [Nat.digits_def' (by decide) h]; simp

theorem and_pred_mod_two (v : Nat) : (v &&& (v - 1)) % 2 = 0 := by
  have h := Nat.testBit_and v (v - 1) 0
  rw [Nat.testBit_zero, Nat.testBit_zero, Nat.testBit_zero] at h
  by_contra hne
  have h1 : (v &&& (v - 1)) % 2 = 1 := by omega
  rw [h1] at h
  simp only [decide_True, Bool.true_eq, Bool.and_eq_true, decide_eq_true_eq] at h
  omega

/-- Clearing the lowest set bit lowers the population count by one. -/
theorem popcnt_bscf (v : Nat) (hv : v ≠ 0) : popcnt v = popcnt (__bscf v).2 + 1 := by
  show popcnt v = popcnt (v &&& (v - 1)) + 1
  induction v using Nat.strong_induction_on with
  | _ v ih =>
    rw [popcnt_step v, popcnt_step (v &&& (v - 1)), and_pred_mod_two, Nat.and_div_two]
    by_cases h1 : v % 2 = 1
    · have : (v - 1) / 2 = v / 2 := by omega
      rw [this, Nat.and_self, h1]; omega
    · have h2 : (v - 1) / 2 = v / 2 - 1 := by omega
      have h3 : v / 2 ≠ 0 := by omega
      rw [h2, ih (v / 2) (by omega) h3]; omega

/-! ## The array-of-rays loop -/

section ArrayLoop

open QuadMvIntersector1MoellerTrumbore

variable {F P V Pre : Type}

theorem intersectPrims_from
    (preIntersect : Pre → Ray F P → (Nat → V) → (Nat → V) → (Nat → V) → (Nat → V) →
      (Nat → Nat) → (Nat → Nat) → Ray F P)
    (pre_i : Pre) (prim : Nat → QuadMv V) (i left n : Nat) (ray : Ray F P)
    (calls : List (Nat × Nat)) :
    intersectPrims preIntersect pre_i prim i left n (ray, calls) =
      ((List.range' n left).foldl (fun r m => intersect preIntersect pre_i r (prim m)) ray,
        calls ++ (List.range' n left).map (fun m => (i, m))) := by
  induction left generalizing n ray calls with
  | zero => simp [intersectPrims]
  | succ k ih => simp [intersectPrims, ih, List.range'_succ]

/-- The inner loop is the fold of the single-ray `intersect` over `prim[0..num-1]`, and it logs
the calls `(i, 0), ..., (i, num-1)`. -/
theorem intersectPrims_eq
    (preIntersect : Pre → Ray F P → (Nat → V) → (Nat → V) → (Nat → V) → (Nat → V) →
      (Nat → Nat) → (Nat → Nat) → Ray F P)
    (pre_i : Pre) (prim : Nat → QuadMv V) (i num : Nat) (ray : Ray F P)
    (calls : List (Nat × Nat)) :
    intersectPrims preIntersect pre_i prim i num 0 (ray, calls) =
      (foldPrims preIntersect pre_i prim num ray,
        calls ++ (List.range num).map (fun m => (i, m))) := by
  rw [intersectPrims_from, foldPrims, List.range_eq_range']

/-- One unfolding of the do-while loop: the body, then `while (valid)`. -/
theorem intersectRays_unfold [LinearOrder F]
    (preIntersect : Pre → Ray F P → (Nat → V) → (Nat → V) → (Nat → V) → (Nat → V) →
      (Nat → Nat) → (Nat → Nat) → Ray F P)
    (pre : Nat → Pre) (prim : Nat → QuadMv V) (num valid : Nat) (st : ArrayState F P) :
    intersectRays preIntersect pre prim num valid st =
      whileValid preIntersect pre prim num (__bscf valid).2
        (rayBody preIntersect pre prim num (__bscf valid).1 st) := by
  rw [intersectRays, whileValid]

/-- What `while (valid) { body }` computes from any state: it visits the set bits of `valid` in
ascending order, runs the inner loop for each, replaces each visited ray by the fold over the
primitives, and ors into `valid_isec` the bits of the visited rays whose `tfar` got smaller. -/
theorem whileValid_spec [LinearOrder F]
    (preIntersect : Pre → Ray F P → (Nat → V) → (Nat → V) → (Nat → V) → (Nat → V) →
      (Nat → Nat) → (Nat → Nat) → Ray F P)
    (pre : Nat → Pre) (prim : Nat → QuadMv V) (num v : Nat) :
    ∀ st : ArrayState F P, ∃ l : List Nat,
      l.Sorted (fun a b => a < b) ∧ (∀ j, j ∈ l ↔ v.testBit j = true) ∧ l.length = popcnt v ∧
      (whileValid preIntersect pre prim num v st).visited = st.visited ++ l ∧
      (whileValid preIntersect pre prim num v st).calls =
        st.calls ++ l.flatMap (fun i => (List.range num).map (fun n => (i, n))) ∧
      (∀ j, (whileValid preIntersect pre prim num v st).rays j =
        if v.testBit j = true then foldPrims preIntersect (pre j) prim num (st.rays j)
        else st.rays j) ∧
      (∀ j, (whileValid preIntersect pre prim num v st).valid_isec.testBit j =
        (st.valid_isec.testBit j || (v.testBit j &&
          decide ((foldPrims preIntersect (pre j) prim num (st.rays j)).tfar <
            (st.rays j).tfar)))) := by
  induction v using Nat.strong_induction_on with
  | _ v ih =>
    intro st
    by_cases hv : v = 0
    · subst hv
      exact ⟨[], by simp, by simp, by simp [popcnt], by simp [whileValid],
        by simp [whileValid], by simp [whileValid], by simp [whileValid]⟩
    · have hlt : (__bscf v).2 < v := lt_of_le_of_lt Nat.and_le_right (by omega)
      have hbit := bscf_testBit v hv
      have hset : v.testBit (__bscf v).1 = true := bsf_testBit v hv
      have hmin : ∀ j, j < (__bscf v).1 → v.testBit j = false := bsf_min v hv
      have hpop := popcnt_bscf v hv
      have hun : whileValid preIntersect pre prim num v st =
          whileValid preIntersect pre prim num (__bscf v).2
            (rayBody preIntersect pre prim num (__bscf v).1 st) := by
        rw [← intersectRays_unfold]; simp [whileValid, hv]
      obtain ⟨l, hs, hm, hl, hvis, hcalls, hrays, hisec⟩ :=
        ih (__bscf v).2 hlt (rayBody preIntersect pre prim num (__bscf v).1 st)
      generalize (__bscf v).1 = i at *
      generalize (__bscf v).2 = w at *
      have hmem : ∀ j, j ∈ l → i < j := by
        intro j hj
        have h1 := (hm j).1 hj
        rw [hbit j] at h1
        simp only [Bool.and_eq_true, decide_eq_true_eq] at h1
        by_contra hcon
        have h2 := hmin j (by omega)
        rw [h2] at h1
        exact absurd h1.1 (by simp)
      refine ⟨i :: l, ?_, ?_, ?_, ?_, ?_, ?_, ?_⟩
      · exact List.sorted_cons.2 ⟨hmem, hs⟩
      · intro j
        rw [List.mem_cons, hm j, hbit j]
        by_cases hji : j = i
        · subst hji; simp [hset]
        · simp [hji]
      · rw [List.length_cons, hl, hpop]
      · rw [hun, hvis]; simp [rayBody]
      · rw [hun, hcalls]
        simp [rayBody, intersectPrims_eq, List.flatMap_cons]
      · intro j
        rw [hun, hrays j, hbit j]
        by_cases hji : j = i
        · subst hji; simp [hset, rayBody, intersectPrims_eq]
        · simp [hji, rayBody, Function.update_noteq hji]
      · intro j
        rw [hun, hisec j, hbit j]
        by_cases hji : j = i
        · subst hji
          simp only [rayBody, intersectPrims_eq, Nat.testBit_or, hset, ne_eq, not_true_eq_false,
            decide_False, Bool.and_false, Bool.or_false, Bool.true_and]
          split_ifs with hc
          · simp [hc, Nat.testBit_shiftLeft]
          · simp [hc]
        · have hne : ¬ i = j := fun h => hji h.symm
          simp only [rayBody, intersectPrims_eq, Nat.testBit_or, Function.update_noteq hji,
            ne_eq, hji, not_false_eq_true, decide_True, Bool.and_true]
          split_ifs with hc
          · have : (1 <<< i).testBit j = false := by
              rw [Nat.one_shiftLeft, Nat.testBit_two_pow]; simp [hne]
            simp [this]
          · simp

/-- On a non-zero mask the array form is `while (valid) { body }` run from the initial state. -/
theorem intersectN_eq_whileValid [LinearOrder F]
    (preIntersect : Pre → Ray F P → (Nat → V) → (Nat → V) → (Nat → V) → (Nat → V) →
      (Nat → Nat) → (Nat → Nat) → Ray F P)
    (pre : Nat → Pre) (valid : Nat) (rays : Nat → Ray F P) (prim : Nat → QuadMv V) (num : Nat)
    (hvalid : valid ≠ 0) :
    intersectN preIntersect pre valid rays prim num =
      whileValid preIntersect pre prim num valid
        { valid_isec := 0, rays := rays, visited := [], calls := [] } := by
  simp [intersectN, whileValid, hvalid]

/-- Summary of the array form on a non-zero mask. -/
theorem intersectN_spec [LinearOrder F]
    (preIntersect : Pre → Ray F P → (Nat → V) → (Nat → V) → (Nat → V) → (Nat → V) →
      (Nat → Nat) → (Nat → Nat) → Ray F P)
    (pre : Nat → Pre) (valid : Nat) (rays : Nat → Ray F P) (prim : Nat → QuadMv V) (num : Nat)
    (hvalid : valid ≠ 0) :
    (intersectN preIntersect pre valid rays prim num).visited.Sorted (fun a b => a < b) ∧
    (∀ j, j ∈ (intersectN preIntersect pre valid rays prim num).visited ↔
      valid.testBit j = true) ∧
    (intersectN preIntersect pre valid rays prim num).visited.length = popcnt valid ∧
    (intersectN preIntersect pre valid rays prim num).calls =
      (intersectN preIntersect pre valid rays prim num).visited.flatMap
        (fun i => (List.range num).map (fun n => (i, n))) ∧
    (∀ j, (intersectN preIntersect pre valid rays prim num).rays j =
      if valid.testBit j = true then foldPrims preIntersect (pre j) prim num (rays j)
      else rays j) ∧
    (∀ j, (intersectN preIntersect pre valid rays prim num).valid_isec.testBit j =
      (valid.testBit j &&
        decide ((foldPrims preIntersect (pre j) prim num (rays j)).tfar < (rays j).tfar))) := by
  rw [intersectN_eq_whileValid preIntersect pre valid rays prim num hvalid]
  obtain ⟨l, hs, hm, hl, hvis, hcalls, hrays, hisec⟩ :=
    whileValid_spec preIntersect pre prim num valid
      { valid_isec := 0, rays := rays, visited := [], calls := [] }
  simp only [List.nil_append] at hvis hcalls
  rw [hvis, hcalls]
  refine ⟨hs, hm, hl, rfl, hrays, ?_⟩
  intro j
  rw [hisec j]
  simp

theorem foldPrims_succ
    (preIntersect : Pre → Ray F P → (Nat → V) → (Nat → V) → (Nat → V) → (Nat → V) →
      (Nat → Nat) → (Nat → Nat) → Ray F P)
    (pre_i : Pre) (prim : Nat → QuadMv V) (num : Nat) (ray : Ray F P) :
    foldPrims preIntersect pre_i prim (num + 1) ray =
      intersect preIntersect pre_i (foldPrims preIntersect pre_i prim num ray) (prim num) := by
  simp [foldPrims, List.range_succ, List.foldl_append]

/-- A step that returns the ray it is given makes the whole fold return it. -/
theorem foldPrims_fixed
    (preIntersect : Pre → Ray F P → (Nat → V) → (Nat → V) → (Nat → V) → (Nat → V) →
      (Nat → Nat) → (Nat → Nat) → Ray F P)
    (hstep : ∀ (p : Pre) (r : Ray F P) (q : QuadMv V), intersect preIntersect p r q = r)
    (pre_i : Pre) (prim : Nat → QuadMv V) (num : Nat) (ray : Ray F P) :
    foldPrims preIntersect pre_i prim num ray = ray := by
  induction num with
  | zero => simp [foldPrims]
  | succ n ih => rw [foldPrims_succ, ih, hstep]

/-- A step that never raises `tfar` makes the whole fold never raise it. -/
theorem foldPrims_tfar_le [LinearOrder F]
    (preIntersect : Pre → Ray F P → (Nat → V) → (Nat → V) → (Nat → V) → (Nat → V) →
      (Nat → Nat) → (Nat → Nat) → Ray F P)
    (hstep : ∀ (p : Pre) (r : Ray F P) (q : QuadMv V),
      (intersect preIntersect p r q).tfar ≤ r.tfar)
    (pre_i : Pre) (prim : Nat → QuadMv V) (num : Nat) (ray : Ray F P) :
    (foldPrims preIntersect pre_i prim num ray).tfar ≤ ray.tfar := by
  induction num with
  | zero => simp [foldPrims]
  | succ n ih => rw [foldPrims_succ]; exact le_trans (hstep _ _ _) ih

end ArrayLoop

/-! ## The packet loops -/

section PacketLoops

open QuadMvIntersectorKMoellerTrumbore

variable {K : Nat} {V Pre RayK : Type}

/-- The lanes handed to `intersectK` by the closest-hit loop entered at lane `i`, when every lane
below `i` is valid: the lanes from `i` on all of whose predecessors are valid, in ascending
order. -/
theorem intersectLanes_calls
    (qvalid : QuadMv V → Nat → Bool)
    (intersectK : (Fin K → Bool) → V → V → V → V → (Nat → Nat) → (Nat → Nat) → Nat →
      Pre × RayK → Pre × RayK)
    (valid_i : Fin K → Bool) (quad : QuadMv V) (left : Nat) :
    ∀ (i : Nat) (st : PacketState Pre RayK), (∀ j, j < i → qvalid quad j = true) →
      (intersectLanes qvalid intersectK valid_i quad left i st).calls =
        st.calls ++ (List.range' i left).filter
          (fun k => decide (∀ j, j ≤ k → qvalid quad j = true)) := by
  induction left with
  | zero => intro i st _; simp [intersectLanes]
  | succ n ih =>
    intro i st hprev
    by_cases hq : qvalid quad i = true
    · have hall : ∀ j, j ≤ i → qvalid quad j = true := by
        intro j hj
        rcases Nat.lt_or_ge j i with h | h
        · exact hprev j h
        · have : j = i := by omega
          rw [this]; exact hq
      have hnext : ∀ j, j < i + 1 → qvalid quad j = true := fun j hj => hall j (by omega)
      simp only [intersectLanes, hq, Bool.not_true, Bool.false_eq_true, if_false]
      rw [ih (i + 1) _ hnext, List.range'_succ, List.filter_cons,
        if_pos (decide_eq_true hall)]
      simp
    · have hnone : ∀ k, k ∈ List.range' i (n + 1) →
          ¬ (decide (∀ j, j ≤ k → qvalid quad j = true) = true) := by
        intro k hk hdec
        have hik : i ≤ k := by
          have := List.mem_range'_1.1 hk
          omega
        exact hq (of_decide_eq_true hdec i hik)
      simp only [Bool.not_eq_true] at hq
      simp only [intersectLanes, hq, Bool.not_false, if_true]
      rw [List.filter_eq_nil_iff.2 hnone]
      simp

/-- The precalculations and ray packet left by the closest-hit loop entered at lane `i`, when
every lane below `i` is valid: `intersectK` applied, in ascending order, for each lane from `i`
on all of whose predecessors are valid. -/
theorem intersectLanes_state
    (qvalid : QuadMv V → Nat → Bool)
    (intersectK : (Fin K → Bool) → V → V → V → V → (Nat → Nat) → (Nat → Nat) → Nat →
      Pre × RayK → Pre × RayK)
    (valid_i : Fin K → Bool) (quad : QuadMv V) (left : Nat) :
    ∀ (i : Nat) (st : PacketState Pre RayK), (∀ j, j < i → qvalid quad j = true) →
      ((intersectLanes qvalid intersectK valid_i quad left i st).pre,
        (intersectLanes qvalid intersectK valid_i quad left i st).ray) =
        ((List.range' i left).filter
          (fun k => decide (∀ j, j ≤ k → qvalid quad j = true))).foldl
          (fun s k => intersectK valid_i (quad.v0 k) (quad.v1 k) (quad.v2 k) (quad.v3 k)
            quad.geomIDs quad.primIDs k s) (st.pre, st.ray) := by
  induction left with
  | zero => intro i st _; simp [intersectLanes]
  | succ n ih =>
    intro i st hprev
    by_cases hq : qvalid quad i = true
    · have hall : ∀ j, j ≤ i → qvalid quad j = true := by
        intro j hj
        rcases Nat.lt_or_ge j i with h | h
        · exact hprev j h
        · have : j = i := by omega
          rw [this]; exact hq
      have hnext : ∀ j, j < i + 1 → qvalid quad j = true := fun j hj => hall j (by omega)
      simp only [intersectLanes, hq, Bool.not_true, Bool.false_eq_true, if_false]
      rw [ih (i + 1) _ hnext, List.range'_succ, List.filter_cons,
        if_pos (decide_eq_true hall), List.foldl_cons]
    · have hnone : ∀ k, k ∈ List.range' i (n + 1) →
          ¬ (decide (∀ j, j ≤ k → qvalid quad j = true) = true) := by
        intro k hk hdec
        have hik : i ≤ k := by
          have := List.mem_range'_1.1 hk
          omega
        exact hq (of_decide_eq_true hdec i hik)
      simp only [Bool.not_eq_true] at hq
      simp only [intersectLanes, hq, Bool.not_false, if_true]
      rw [List.filter_eq_nil_iff.2 hnone]
      simp

/-- An engine that returns the ray packet it is given makes the closest-hit loop return it. -/
theorem intersectLanes_ray
    (qvalid : QuadMv V → Nat → Bool)
    (intersectK : (Fin K → Bool) → V → V → V → V → (Nat → Nat) → (Nat → Nat) → Nat →
      Pre × RayK → Pre × RayK)
    (valid_i : Fin K → Bool) (quad : QuadMv V)
    (hK : ∀ (a b c d : V) (g p : Nat → Nat) (i : Nat) (s : Pre × RayK),
      (intersectK valid_i a b c d g p i s).2 = s.2)
    (left : Nat) :
    ∀ (i : Nat) (st : PacketState Pre RayK),
      (intersectLanes qvalid intersectK valid_i quad left i st).ray = st.ray := by
  induction left with
  | zero => intro i st; simp [intersectLanes]
  | succ n ih =>
    intro i st
    by_cases hq : qvalid quad i = true
    · simp only [intersectLanes, hq, Bool.not_true, Bool.false_eq_true, if_false]
      rw [ih]
      exact hK _ _ _ _ _ _ _ _
    · simp only [Bool.not_eq_true] at hq
      simp [intersectLanes, hq]

/-- The occlusion loop entered at lane `i` with `i + left = M` only extends the log, and every
entry it adds is a valid lane below `M`. -/
theorem occludedLanes_log
    (qvalid : QuadMv V → Nat → Bool)
    (intersectK : V → V → V → V → (Nat → Nat) → (Nat → Nat) → Nat →
      OccludedState K Pre RayK → OccludedState K Pre RayK × Bool)
    (quad : QuadMv V) (M left : Nat) :
    ∀ (i : Nat) (st : OccludedState K Pre RayK) (log : List (OccludedCall K)), i + left = M →
      ∃ added : List (OccludedCall K),
        (occludedLanes qvalid intersectK quad left i (st, log)).2 = log ++ added ∧
        ∀ e, e ∈ added → e.index < M ∧ qvalid quad e.index = true := by
  induction left with
  | zero => intro i st log _; exact ⟨[], by simp [occludedLanes], by simp⟩
  | succ n ih =>
    intro i st log hM
    by_cases hq : qvalid quad i = true
    · simp only [occludedLanes, hq, Bool.not_true, Bool.false_eq_true, if_false]
      generalize intersectK (quad.v0 i) (quad.v1 i) (quad.v2 i) (quad.v3 i)
        quad.geomIDs quad.primIDs i st = r
      split_ifs with hhit
      · refine ⟨[{ index := i, before := st.valid0, after := r.1.valid0 }], rfl, ?_⟩
        intro e he
        rw [List.mem_singleton] at he
        subst he
        exact ⟨by show i < M; omega, hq⟩
      · obtain ⟨added, h1, h2⟩ := ih (i + 1) r.1
          (log ++ [{ index := i, before := st.valid0, after := r.1.valid0 }]) (by omega)
        refine ⟨{ index := i, before := st.valid0, after := r.1.valid0 } :: added,
          by rw [h1]; simp, ?_⟩
        intro e he
        rcases List.mem_cons.1 he with h | h
        · subst h
          exact ⟨by show i < M; omega, hq⟩
        · exact h2 e h
    · simp only [Bool.not_eq_true] at hq
      exact ⟨[], by simp [occludedLanes, hq], by simp⟩

/-- A lane that is set in `valid0` when the occlusion loop is entered and clear when it is left
was cleared during one of the logged `intersectK` calls. -/
theorem occludedLanes_cleared
    (qvalid : QuadMv V → Nat → Bool)
    (intersectK : V → V → V → V → (Nat → Nat) → (Nat → Nat) → Nat →
      OccludedState K Pre RayK → OccludedState K Pre RayK × Bool)
    (quad : QuadMv V) (M : Nat) (k : Fin K) (left : Nat) :
    ∀ (i : Nat) (st : OccludedState K Pre RayK) (log : List (OccludedCall K)), i + left = M →
      st.valid0 k = true →
      (occludedLanes qvalid intersectK quad left i (st, log)).1.valid0 k = false →
      ∃ e, e ∈ (occludedLanes qvalid intersectK quad left i (st, log)).2 ∧
        e.before k = true ∧ e.after k = false ∧ e.index < M ∧ qvalid quad e.index = true := by
  induction left with
  | zero =>
    intro i st log _ h1 h2
    simp only [occludedLanes] at h2
    rw [h1] at h2
    exact absurd h2 (by simp)
  | succ n ih =>
    intro i st log hM h1 h2
    by_cases hq : qvalid quad i = true
    · by_cases hk : (intersectK (quad.v0 i) (quad.v1 i) (quad.v2 i) (quad.v3 i)
          quad.geomIDs quad.primIDs i st).1.valid0 k = true
      · by_cases hhit : (intersectK (quad.v0 i) (quad.v1 i) (quad.v2 i) (quad.v3 i)
            quad.geomIDs quad.primIDs i st).2 = true
        · simp only [occludedLanes, hq, hhit, Bool.not_true, Bool.false_eq_true, if_false,
            if_true] at h2
          rw [hk] at h2
          exact absurd h2 (by simp)
        · simp only [occludedLanes, hq, hhit, Bool.not_true, Bool.false_eq_true, if_false]
            at h2 ⊢
          exact ih (i + 1) _ _ (by omega) hk h2
      · simp only [Bool.not_eq_true] at hk
        obtain ⟨added, hlog, -⟩ := occludedLanes_log qvalid intersectK quad M (n + 1) i st log hM
        refine ⟨{ index := i, before := st.valid0, after := (intersectK (quad.v0 i)
          (quad.v1 i) (quad.v2 i) (quad.v3 i) quad.geomIDs quad.primIDs i st).1.valid0 },
          ?_, h1, hk, by show i < M; omega, hq⟩
        by_cases hhit : (intersectK (quad.v0 i) (quad.v1 i) (quad.v2 i) (quad.v3 i)
            quad.geomIDs quad.primIDs i st).2 = true
        · simp [occludedLanes, hq, hhit]
        · simp only [occludedLanes, hq, hhit, Bool.not_true, Bool.false_eq_true, if_false]
          obtain ⟨added2, hlog2, -⟩ := occludedLanes_log qvalid intersectK quad M n (i + 1)
            (intersectK (quad.v0 i) (quad.v1 i) (quad.v2 i) (quad.v3 i)
              quad.geomIDs quad.primIDs i st).1
            (log ++ [{ index := i, before := st.valid0, after := (intersectK (quad.v0 i)
              (quad.v1 i) (quad.v2 i) (quad.v3 i) quad.geomIDs quad.primIDs i st).1.valid0 }])
            (by omega)
          rw [hlog2]
          simp
    · simp only [Bool.not_eq_true] at hq
      simp only [occludedLanes, hq, Bool.not_false, if_true] at h2
      rw [h1] at h2
      exact absurd h2 (by simp)

/-- Once `valid0` is all-false, an engine that then changes nothing makes the loop without the
early exit keep the state. -/
theorem occludedLanesNoBreak_idle
    (qvalid : QuadMv V → Nat → Bool)
    (intersectK : V → V → V → V → (Nat → Nat) → (Nat → Nat) → Nat →
      OccludedState K Pre RayK → OccludedState K Pre RayK × Bool)
    (quad : QuadMv V)
    (hidle : ∀ (a b c d : V) (g p : Nat → Nat) (i : Nat) (st : OccludedState K Pre RayK),
      (∀ k, st.valid0 k = false) → (intersectK a b c d g p i st).1 = st)
    (left : Nat) :
    ∀ (i : Nat) (st : OccludedState K Pre RayK) (log : List (OccludedCall K)),
      (∀ k, st.valid0 k = false) →
      (occludedLanesNoBreak qvalid intersectK quad left i (st, log)).1 = st := by
  induction left with
  | zero => intro i st log _; simp [occludedLanesNoBreak]
  | succ n ih =>
    intro i st log hst
    by_cases hq : qvalid quad i = true
    · simp only [occludedLanesNoBreak, hq, Bool.not_true, Bool.false_eq_true, if_false]
      have h := hidle (quad.v0 i) (quad.v1 i) (quad.v2 i) (quad.v3 i) quad.geomIDs
        quad.primIDs i st hst
      rw [ih (i + 1) _ _ (by rw [h]; exact hst), h]
    · simp only [Bool.not_eq_true] at hq
      simp [occludedLanesNoBreak, hq]

/-- The loop with the early exit and the loop without it end in the same state, whatever the
logs. -/
theorem occludedLanes_eq_noBreak
    (qvalid : QuadMv V → Nat → Bool)
    (intersectK : V → V → V → V → (Nat → Nat) → (Nat → Nat) → Nat →
      OccludedState K Pre RayK → OccludedState K Pre RayK × Bool)
    (quad : QuadMv V)
    (hidle : ∀ (a b c d : V) (g p : Nat → Nat) (i : Nat) (st : OccludedState K Pre RayK),
      (∀ k, st.valid0 k = false) → (intersectK a b c d g p i st).1 = st)
    (hret : ∀ (a b c d : V) (g p : Nat → Nat) (i : Nat) (st : OccludedState K Pre RayK),
      (intersectK a b c d g p i st).2 = true →
        ∀ k, (intersectK a b c d g p i st).1.valid0 k = false)
    (left : Nat) :
    ∀ (i : Nat) (st : OccludedState K Pre RayK) (log log2 : List (OccludedCall K)),
      (occludedLanes qvalid intersectK quad left i (st, log)).1 =
        (occludedLanesNoBreak qvalid intersectK quad left i (st, log2)).1 := by
  induction left with
  | zero => intro i st log log2; simp [occludedLanes, occludedLanesNoBreak]
  | succ n ih =>
    intro i st log log2
    by_cases hq : qvalid quad i = true
    · simp only [occludedLanes, occludedLanesNoBreak, hq, Bool.not_true, Bool.false_eq_true,
        if_false]
      split_ifs with hhit
      · rw [occludedLanesNoBreak_idle qvalid intersectK quad hidle n (i + 1) _ _
          (hret _ _ _ _ _ _ _ _ hhit)]
      · exact ih (i + 1) _ _ _
    · simp only [Bool.not_eq_true] at hq
      simp [occludedLanes, occludedLanesNoBreak, hq]

/-- The sample engine `hitK` changes nothing once `valid0` is all-false. -/
theorem Sample.hitK_idle (a b c d : Unit) (g p : Nat → Nat) (i : Nat)
    (st : OccludedState 2 Unit Unit) (h : ∀ k, st.valid0 k = false) :
    (Sample.hitK a b c d g p i st).1 = st := by
  cases st with
  | mk v0 pre ray =>
    have hv : v0 = fun _ => false := funext h
    simp [Sample.hitK, hv]

/-- The sample engine `hitK` always leaves `valid0` all-false. -/
theorem Sample.hitK_ret (a b c d : Unit) (g p : Nat → Nat) (i : Nat)
    (st : OccludedState 2 Unit Unit) (_ : (Sample.hitK a b c d g p i st).2 = true) :
    ∀ k, (Sample.hitK a b c d g p i st).1.valid0 k = false :=
  fun _ => rfl

end PacketLoops

/-! ## The claims: array-of-rays form -/

section ArrayClaims

open QuadMvIntersector1MoellerTrumbore

variable {F P V Pre : Type}

/-- C1: for a non-zero `valid` and every ray index `i`, bit `i` of the mask returned by the
array-of-rays `intersect` is set if and only if bit `i` of `valid` is set and the `tfar` of ray
`i` after the call is strictly smaller than before the call; a ray whose `tfar` is the same after
the call as before never has its bit set. -/
theorem C1_array_mask_iff_tfar_reduced [LinearOrder F]
    (preIntersect : Pre → Ray F P → (Nat → V) → (Nat → V) → (Nat → V) → (Nat → V) →
      (Nat → Nat) → (Nat → Nat) → Ray F P)
    (pre : Nat → Pre) (valid : Nat) (rays : Nat → Ray F P) (prim : Nat → QuadMv V) (num : Nat)
    (hvalid : valid ≠ 0) (i : Nat) :
    ((intersectN preIntersect pre valid rays prim num).valid_isec.testBit i = true ↔
      valid.testBit i = true ∧
        ((intersectN preIntersect pre valid rays prim num).rays i).tfar < (rays i).tfar) ∧
    (((intersectN preIntersect pre valid rays prim num).rays i).tfar = (rays i).tfar →
      (intersectN preIntersect pre valid rays prim num).valid_isec.testBit i = false) := by
  obtain ⟨-, -, -, -, hrays, hisec⟩ := intersectN_spec preIntersect pre valid rays prim num hvalid
  rw [hisec i, hrays i]
  by_cases hb : valid.testBit i = true
  · simp only [hb, if_true, Bool.true_and, decide_eq_true_eq, true_and, decide_eq_false_iff_not]
    intro h
    rw [h]
    exact lt_irrefl _
  · simp only [Bool.not_eq_true] at hb
    simp [hb]

/-- C8: when the single-primitive `intersect` never raises the `tfar` of the ray it is given,
then after the array-of-rays `intersect` on a non-zero `valid`, for every `num`, the `tfar` of
every ray is at most what it was before the call; and each ray `i` taken from the mask (bit `i`
of `valid` set) ends as the fold of the single-primitive `intersect` over
`prim[0], ..., prim[num-1]` in this order, so in particular its `tfar` is the `tfar` of that
fold. -/
theorem C8_array_tfar_never_increases [LinearOrder F]
    (preIntersect : Pre → Ray F P → (Nat → V) → (Nat → V) → (Nat → V) → (Nat → V) →
      (Nat → Nat) → (Nat → Nat) → Ray F P)
    (pre : Nat → Pre) (valid : Nat) (rays : Nat → Ray F P) (prim : Nat → QuadMv V) (num : Nat)
    (hstep : ∀ (p : Pre) (r : Ray F P) (q : QuadMv V),
      (intersect preIntersect p r q).tfar ≤ r.tfar)
    (hvalid : valid ≠ 0) :
    (∀ i, ((intersectN preIntersect pre valid rays prim num).rays i).tfar ≤ (rays i).tfar) ∧
    (∀ i, valid.testBit i = true →
      (intersectN preIntersect pre valid rays prim num).rays i =
        (List.range num).foldl (fun r n => intersect preIntersect (pre i) r (prim n))
          (rays i)) := by
  obtain ⟨-, -, -, -, hrays, -⟩ := intersectN_spec preIntersect pre valid rays prim num hvalid
  constructor
  · intro i
    rw [hrays i]
    split_ifs
    · exact foldPrims_tfar_le preIntersect hstep (pre i) prim num (rays i)
    · exact le_refl _
  · intro i hi
    rw [hrays i, if_pos hi, foldPrims]

/-- C9: on a non-zero `valid` the do-while loop of the array-of-rays `intersect` ends after
exactly `popcnt valid` iterations; the ray indices it takes from the mask are exactly the set
bits of `valid`, each once, in ascending order; and for each of them, in that order, the
single-primitive `intersect` is run against `prim[0], ..., prim[num-1]` in this order: these are
the logged calls, and each visited ray ends as the result of applying the single-primitive
`intersect` with `pre[i]` to it for `prim[0]`, then `prim[1]`, up to `prim[num-1]`. -/
theorem C9_array_lane_iteration [LinearOrder F]
    (preIntersect : Pre → Ray F P → (Nat → V) → (Nat → V) → (Nat → V) → (Nat → V) →
      (Nat → Nat) → (Nat → Nat) → Ray F P)
    (pre : Nat → Pre) (valid : Nat) (rays : Nat → Ray F P) (prim : Nat → QuadMv V) (num : Nat)
    (hvalid : valid ≠ 0) :
    (intersectN preIntersect pre valid rays prim num).visited.length = popcnt valid ∧
    (∀ i, i ∈ (intersectN preIntersect pre valid rays prim num).visited ↔
      valid.testBit i = true) ∧
    (intersectN preIntersect pre valid rays prim num).visited.Nodup ∧
    (intersectN preIntersect pre valid rays prim num).visited.Sorted (fun a b => a < b) ∧
    (intersectN preIntersect pre valid rays prim num).calls =
      (intersectN preIntersect pre valid rays prim num).visited.flatMap
        (fun i => (List.range num).map (fun n => (i, n))) ∧
    (∀ i, i ∈ (intersectN preIntersect pre valid rays prim num).visited →
      (intersectN preIntersect pre valid rays prim num).rays i =
        (List.range num).foldl (fun r n => intersect preIntersect (pre i) r (prim n))
          (rays i)) := by
  obtain ⟨hs, hm, hl, hcalls, hrays, -⟩ :=
    intersectN_spec preIntersect pre valid rays prim num hvalid
  refine ⟨hl, hm, hs.nodup, hs, hcalls, ?_⟩
  intro i hi
  rw [hrays i, if_pos ((hm i).1 hi), foldPrims]

/-- C10: on a non-zero `valid`, a ray whose index is not a set bit of `valid` is never taken from
the mask, never passed to the single-primitive `intersect`, and is left unchanged; the returned
mask is a subset of `valid` (its bits are bits of `valid`, and and-ing it with the complement of
`valid` in any width `w` that holds `valid` gives `0`); and the final state and result bit of ray
`i` are the same for any two ray arrays and precalculation arrays that agree at index `i`. -/
theorem C10_array_frame [LinearOrder F]
    (preIntersect : Pre → Ray F P → (Nat → V) → (Nat → V) → (Nat → V) → (Nat → V) →
      (Nat → Nat) → (Nat → Nat) → Ray F P)
    (pre : Nat → Pre) (valid : Nat) (rays : Nat → Ray F P) (prim : Nat → QuadMv V) (num : Nat)
    (hvalid : valid ≠ 0) :
    (∀ i, valid.testBit i = false →
      i ∉ (intersectN preIntersect pre valid rays prim num).visited ∧
      (∀ n, (i, n) ∉ (intersectN preIntersect pre valid rays prim num).calls) ∧
      (intersectN preIntersect pre valid rays prim num).rays i = rays i) ∧
    (∀ i, (intersectN preIntersect pre valid rays prim num).valid_isec.testBit i = true →
      valid.testBit i = true) ∧
    (∀ w, valid < 2 ^ w →
      (intersectN preIntersect pre valid rays prim num).valid_isec &&& (2 ^ w - 1 - valid) =
        0) ∧
    (∀ (pre2 : Nat → Pre) (rays2 : Nat → Ray F P) (i : Nat),
      pre2 i = pre i → rays2 i = rays i →
      (intersectN preIntersect pre2 valid rays2 prim num).rays i =
        (intersectN preIntersect pre valid rays prim num).rays i ∧
      (intersectN preIntersect pre2 valid rays2 prim num).valid_isec.testBit i =
        (intersectN preIntersect pre valid rays prim num).valid_isec.testBit i) := by
  obtain ⟨-, hm, -, hcalls, hrays, hisec⟩ :=
    intersectN_spec preIntersect pre valid rays prim num hvalid
  have hsub : ∀ i, (intersectN preIntersect pre valid rays prim num).valid_isec.testBit i = true →
      valid.testBit i = true := by
    intro i hi
    rw [hisec i] at hi
    simp only [Bool.and_eq_true] at hi
    exact hi.1
  refine ⟨?_, hsub, ?_, ?_⟩
  · intro i hi
    have hnot : i ∉ (intersectN preIntersect pre valid rays prim num).visited := by
      rw [hm i, hi]; simp
    refine ⟨hnot, ?_, by rw [hrays i, hi]; simp⟩
    intro n hn
    rw [hcalls, List.mem_flatMap] at hn
    obtain ⟨a, ha, hmem⟩ := hn
    rw [List.mem_map] at hmem
    obtain ⟨m, -, heq⟩ := hmem
    have : a = i := congrArg Prod.fst heq
    rw [this] at ha
    exact hnot ha
  · intro w hw
    apply Nat.eq_of_testBit_eq
    intro i
    have h1 : 2 ^ w - 1 - valid = 2 ^ w - (valid + 1) := by omega
    rw [Nat.testBit_and, h1, Nat.testBit_two_pow_sub_succ hw, Nat.zero_testBit]
    cases hres : (intersectN preIntersect pre valid rays prim num).valid_isec.testBit i with
    | false => simp
    | true => simp [hsub i hres]
  · intro pre2 rays2 i hp hr
    obtain ⟨-, -, -, -, hrays2, hisec2⟩ :=
      intersectN_spec preIntersect pre2 valid rays2 prim num hvalid
    rw [hrays2 i, hrays i, hisec2 i, hisec i, hp, hr]
    exact ⟨rfl, rfl⟩

theorem C1_array_mask_iff_tfar_reduced_witness :
    (5 : Nat) ≠ 0 ∧
    (((intersectN Sample.closer Sample.pres 5 Sample.rays Sample.prims 3).valid_isec.testBit 2
        = true ↔
      Nat.testBit 5 2 = true ∧
        ((intersectN Sample.closer Sample.pres 5 Sample.rays Sample.prims 3).rays 2).tfar <
          (Sample.rays 2).tfar) ∧
    (((intersectN Sample.closer Sample.pres 5 Sample.rays Sample.prims 3).rays 2).tfar =
        (Sample.rays 2).tfar →
      (intersectN Sample.closer Sample.pres 5 Sample.rays Sample.prims 3).valid_isec.testBit 2
        = false)) :=
  ⟨by decide,
    C1_array_mask_iff_tfar_reduced Sample.closer Sample.pres 5 Sample.rays Sample.prims 3
      (by decide) 2⟩

theorem C8_array_tfar_never_increases_witness :
    (∀ (p : Unit) (r : Ray Int Unit) (q : QuadMv Unit),
      (intersect Sample.closer p r q).tfar ≤ r.tfar) ∧
    (5 : Nat) ≠ 0 ∧
    (∀ i, ((intersectN Sample.closer Sample.pres 5 Sample.rays Sample.prims 3).rays i).tfar ≤
      (Sample.rays i).tfar) ∧
    (∀ i, Nat.testBit 5 i = true →
      (intersectN Sample.closer Sample.pres 5 Sample.rays Sample.prims 3).rays i =
        (List.range 3).foldl (fun r n => intersect Sample.closer (Sample.pres i) r
          (Sample.prims n)) (Sample.rays i)) :=
  ⟨fun _ r _ => by show r.tfar - 1 ≤ r.tfar; omega, by decide,
    C8_array_tfar_never_increases Sample.closer Sample.pres 5 Sample.rays Sample.prims 3
      (fun _ r _ => by show r.tfar - 1 ≤ r.tfar; omega) (by decide)⟩

theorem C9_array_lane_iteration_witness :
    (5 : Nat) ≠ 0 ∧
    (intersectN Sample.closer Sample.pres 5 Sample.rays Sample.prims 3).visited.length =
      popcnt 5 ∧
    (∀ i, i ∈ (intersectN Sample.closer Sample.pres 5 Sample.rays Sample.prims 3).visited ↔
      Nat.testBit 5 i = true) ∧
    (intersectN Sample.closer Sample.pres 5 Sample.rays Sample.prims 3).visited.Nodup ∧
    (intersectN Sample.closer Sample.pres 5 Sample.rays Sample.prims 3).visited.Sorted
      (fun a b => a < b) ∧
    (intersectN Sample.closer Sample.pres 5 Sample.rays Sample.prims 3).calls =
      (intersectN Sample.closer Sample.pres 5 Sample.rays Sample.prims 3).visited.flatMap
        (fun i => (List.range 3).map (fun n => (i, n))) ∧
    (∀ i, i ∈ (intersectN Sample.closer Sample.pres 5 Sample.rays Sample.prims 3).visited →
      (intersectN Sample.closer Sample.pres 5 Sample.rays Sample.prims 3).rays i =
        (List.range 3).foldl (fun r n => intersect Sample.closer (Sample.pres i) r
          (Sample.prims n)) (Sample.rays i)) :=
  ⟨by decide,
    C9_array_lane_iteration Sample.closer Sample.pres 5 Sample.rays Sample.prims 3
      (by decide)⟩

theorem C10_array_frame_witness :
    (5 : Nat) ≠ 0 ∧
    (∀ i, Nat.testBit 5 i = false →
      i ∉ (intersectN Sample.closer Sample.pres 5 Sample.rays Sample.prims 3).visited ∧
      (∀ n, (i, n) ∉ (intersectN Sample.closer Sample.pres 5 Sample.rays Sample.prims 3).calls) ∧
      (intersectN Sample.closer Sample.pres 5 Sample.rays Sample.prims 3).rays i =
        Sample.rays i) ∧
    (∀ i, (intersectN Sample.closer Sample.pres 5 Sample.rays Sample.prims 3).valid_isec.testBit
        i = true → Nat.testBit 5 i = true) ∧
    (∀ w, 5 < 2 ^ w →
      (intersectN Sample.closer Sample.pres 5 Sample.rays Sample.prims 3).valid_isec &&&
        (2 ^ w - 1 - 5) = 0) ∧
    (∀ (pre2 : Nat → Unit) (rays2 : Nat → Ray Int Unit) (i : Nat),
      pre2 i = Sample.pres i → rays2 i = Sample.rays i →
      (intersectN Sample.closer pre2 5 rays2 Sample.prims 3).rays i =
        (intersectN Sample.closer Sample.pres 5 Sample.rays Sample.prims 3).rays i ∧
      (intersectN Sample.closer pre2 5 rays2 Sample.prims 3).valid_isec.testBit i =
        (intersectN Sample.closer Sample.pres 5 Sample.rays Sample.prims 3).valid_isec.testBit
          i) :=
  ⟨by decide,
    C10_array_frame Sample.closer Sample.pres 5 Sample.rays Sample.prims 3 (by decide)⟩

end ArrayClaims

/-! ## The claims: packet form, and the claims about both forms -/

section PacketClaims

open QuadMvIntersectorKMoellerTrumbore

variable {K : Nat} {V Pre RayK : Type}

/-- C3: in both packet operations `intersectK` is handed only quad lanes `i < M` with
`quad.valid(i)` true, for every batch and every validity predicate: every logged call of packet
`intersect` and every logged call of packet `occluded` is such a lane. -/
theorem C3_packet_only_valid_lanes_tested (M : Nat)
    (qvalid : QuadMv V → Nat → Bool)
    (intersectK : (Fin K → Bool) → V → V → V → V → (Nat → Nat) → (Nat → Nat) → Nat →
      Pre × RayK → Pre × RayK)
    (occludedK : V → V → V → V → (Nat → Nat) → (Nat → Nat) → Nat →
      OccludedState K Pre RayK → OccludedState K Pre RayK × Bool)
    (valid_i : Fin K → Bool) (pre : Pre) (ray : RayK) (quad : QuadMv V) :
    (∀ i, i ∈ (intersect M qvalid intersectK valid_i pre ray quad).calls →
      i < M ∧ qvalid quad i = true) ∧
    (∀ e, e ∈ (occluded M qvalid occludedK valid_i pre ray quad).log →
      e.index < M ∧ qvalid quad e.index = true) := by
  constructor
  · intro i hi
    rw [intersect, intersectLanes_calls qvalid intersectK valid_i quad M 0 _
      (fun j hj => absurd hj (Nat.not_lt_zero j))] at hi
    simp only [List.nil_append, List.mem_filter, decide_eq_true_eq] at hi
    have h1 := List.mem_range'_1.1 hi.1
    exact ⟨by omega, hi.2 i (le_refl i)⟩
  · intro e he
    obtain ⟨added, h1, h2⟩ := occludedLanes_log qvalid occludedK quad M M 0
      { valid0 := valid_i, pre := pre, ray := ray } [] (by omega)
    have he2 : e ∈ (occludedLanes qvalid occludedK quad M 0
        ({ valid0 := valid_i, pre := pre, ray := ray }, [])).2 := he
    rw [h1, List.nil_append] at he2
    exact h2 e he2

/-- C4, as amended: packet `intersect` has no exit that depends on hits. For every batch and
every validity predicate, the quad lanes it tests are exactly the lanes `i < M` such that every
lane `j ≤ i` is valid, each once, in ascending order, whatever `intersectK` does: these are the
logged calls, and the precalculations and ray packet after the call are the result of applying
`intersectK` (with the vertices and identifiers of the lane) to them for each of these lanes in
this order. Lanes after the first invalid lane are not tested. For a prefix-closed validity
predicate the tested lanes are all the valid lanes below `M`. -/
theorem C4_packet_intersect_tests_leading_valid_lanes (M : Nat)
    (qvalid : QuadMv V → Nat → Bool)
    (intersectK : (Fin K → Bool) → V → V → V → V → (Nat → Nat) → (Nat → Nat) → Nat →
      Pre × RayK → Pre × RayK)
    (valid_i : Fin K → Bool) (pre : Pre) (ray : RayK) (quad : QuadMv V) :
    (intersect M qvalid intersectK valid_i pre ray quad).calls =
      (List.range M).filter (fun i => decide (∀ j, j ≤ i → qvalid quad j = true)) ∧
    ((intersect M qvalid intersectK valid_i pre ray quad).pre,
      (intersect M qvalid intersectK valid_i pre ray quad).ray) =
      ((List.range M).filter (fun i => decide (∀ j, j ≤ i → qvalid quad j = true))).foldl
        (fun s i => intersectK valid_i (quad.v0 i) (quad.v1 i) (quad.v2 i) (quad.v3 i)
          quad.geomIDs quad.primIDs i s) (pre, ray) ∧
    ((∀ i j, j ≤ i → qvalid quad i = true → qvalid quad j = true) →
      (intersect M qvalid intersectK valid_i pre ray quad).calls =
        (List.range M).filter (fun i => qvalid quad i) ∧
      ((intersect M qvalid intersectK valid_i pre ray quad).pre,
        (intersect M qvalid intersectK valid_i pre ray quad).ray) =
        ((List.range M).filter (fun i => qvalid quad i)).foldl
          (fun s i => intersectK valid_i (quad.v0 i) (quad.v1 i) (quad.v2 i) (quad.v3 i)
            quad.geomIDs quad.primIDs i s) (pre, ray)) := by
  have h : (intersect M qvalid intersectK valid_i pre ray quad).calls =
      (List.range M).filter (fun i => decide (∀ j, j ≤ i → qvalid quad j = true)) := by
    rw [intersect, intersectLanes_calls qvalid intersectK valid_i quad M 0 _
      (fun j hj => absurd hj (Nat.not_lt_zero j)), List.range_eq_range']
    simp
  have hst : ((intersect M qvalid intersectK valid_i pre ray quad).pre,
      (intersect M qvalid intersectK valid_i pre ray quad).ray) =
      ((List.range M).filter (fun i => decide (∀ j, j ≤ i → qvalid quad j = true))).foldl
        (fun s i => intersectK valid_i (quad.v0 i) (quad.v1 i) (quad.v2 i) (quad.v3 i)
          quad.geomIDs quad.primIDs i s) (pre, ray) := by
    rw [intersect, intersectLanes_state qvalid intersectK valid_i quad M 0 _
      (fun j hj => absurd hj (Nat.not_lt_zero j)), List.range_eq_range']
  refine ⟨h, hst, fun hclosed => ?_⟩
  have hfilter : (List.range M).filter (fun i => decide (∀ j, j ≤ i → qvalid quad j = true)) =
      (List.range M).filter (fun i => qvalid quad i) := by
    apply List.filter_congr
    intro i _
    by_cases hq : qvalid quad i = true
    · rw [hq]
      exact decide_eq_true (fun j hj => hclosed i j hj hq)
    · simp only [Bool.not_eq_true] at hq
      rw [hq]
      exact decide_eq_false
        (fun hall => by rw [hall i (le_refl i)] at hq; exact absurd hq (by simp))
  rw [← hfilter]
  exact ⟨h, hst⟩

/-- C4, as stated, fails: with four lanes of which only lane 1 is invalid, lane 2 is a valid lane
below `M = 4` that packet `intersect` never hands to `intersectK`; the only lane tested is 0.
With an engine that adds one to the ray packet at every call, the packet goes from 7 to 8: one
call, although three lanes below 4 are valid. -/
theorem C4_counterexample_valid_lane_after_gap_untested :
    Sample.gapValid Sample.quad 2 = true ∧ 2 < 4 ∧
    2 ∉ (intersect 4 Sample.gapValid Sample.rejectK Sample.lane0 () 7 Sample.quad).calls ∧
    (intersect 4 Sample.gapValid Sample.rejectK Sample.lane0 () 7 Sample.quad).calls = [0] ∧
    ((List.range 4).filter (fun i => Sample.gapValid Sample.quad i)).length = 3 ∧
    (intersect 4 Sample.gapValid Sample.countK Sample.lane0 () 7 Sample.quad).ray = 8 := by
  decide

/-- C2, as amended: for every input mask, batch and engine behaviour, every lane `k` that is set
in the mask returned by packet `occluded` and was active in `valid_i` had its bit cleared from the
working mask `valid0` by the `intersectK` call (and its epilog) on some tested quad, a valid lane
below `M`. -/
theorem C2_packet_occluded_active_lane_has_hit (M : Nat)
    (qvalid : QuadMv V → Nat → Bool)
    (occludedK : V → V → V → V → (Nat → Nat) → (Nat → Nat) → Nat →
      OccludedState K Pre RayK → OccludedState K Pre RayK × Bool)
    (valid_i : Fin K → Bool) (pre : Pre) (ray : RayK) (quad : QuadMv V) (k : Fin K)
    (hret : (occluded M qvalid occludedK valid_i pre ray quad).ret k = true)
    (hactive : valid_i k = true) :
    ∃ e, e ∈ (occluded M qvalid occludedK valid_i pre ray quad).log ∧
      e.before k = true ∧ e.after k = false ∧ e.index < M ∧ qvalid quad e.index = true := by
  have hclear : (occludedLanes qvalid occludedK quad M 0
      ({ valid0 := valid_i, pre := pre, ray := ray }, [])).1.valid0 k = false := by
    have h : (!(occludedLanes qvalid occludedK quad M 0
        ({ valid0 := valid_i, pre := pre, ray := ray }, [])).1.valid0 k) = true := hret
    simpa using h
  exact occludedLanes_cleared qvalid occludedK quad M k M 0
    { valid0 := valid_i, pre := pre, ray := ray } [] (by omega) hactive hclear

theorem C2_packet_occluded_active_lane_has_hit_witness :
    ((occluded 4 Sample.allValid Sample.hitK Sample.lane0 () () Sample.quad).ret 0 = true ∧
      Sample.lane0 0 = true) ∧
    ∃ e, e ∈ (occluded 4 Sample.allValid Sample.hitK Sample.lane0 () () Sample.quad).log ∧
      e.before 0 = true ∧ e.after 0 = false ∧ e.index < 4 ∧
      Sample.allValid Sample.quad e.index = true :=
  ⟨⟨by decide, by decide⟩,
    C2_packet_occluded_active_lane_has_hit 4 Sample.allValid Sample.hitK Sample.lane0 () ()
      Sample.quad 0 (by decide) (by decide)⟩

/-- C2, as stated, fails: with lane 1 inactive in `valid_i`, four valid quads and an engine that
never accepts a hit, lane 1 is set in the mask returned by packet `occluded` although no logged
`intersectK` call cleared its bit; the same happens with no valid quad, where nothing is tested
at all. -/
theorem C2_counterexample_inactive_lane_reported_occluded :
    ((occluded 4 Sample.allValid Sample.missK Sample.lane0 () () Sample.quad).ret 1 = true ∧
      ¬ ∃ e, e ∈ (occluded 4 Sample.allValid Sample.missK Sample.lane0 () () Sample.quad).log ∧
        e.before 1 = true ∧ e.after 1 = false) ∧
    ((occluded 4 Sample.noneValid Sample.missK Sample.lane0 () () Sample.quad).ret 1 = true ∧
      (occluded 4 Sample.noneValid Sample.missK Sample.lane0 () () Sample.quad).log = []) := by
  refine ⟨⟨by decide, ?_⟩, by decide, ?_⟩
  · rintro ⟨e, he, hb, -⟩
    have hall : ∀ e, e ∈ (occluded 4 Sample.allValid Sample.missK Sample.lane0 () ()
        Sample.quad).log → e.before 1 = false := by
      simp [occluded, occludedLanes, Sample.allValid, Sample.missK, Sample.lane0]
    rw [hall e he] at hb
    exact absurd hb (by simp)
  · simp [occluded, occludedLanes, Sample.noneValid]

/-- C5: the early exit of packet `occluded` is a pure optimisation. If `intersectK` changes
nothing when `valid0` is all-false and returns true only when it leaves `valid0` all-false, then
for every `valid_i` and every batch the mask returned by `occluded` equals the mask returned by
the same loop without the `break` on a true `intersectK` result, and so do the precalculations
and the ray packet. (That the epilog only ever clears bits of `valid0` is not needed.) -/
theorem C5_packet_occluded_break_is_optimisation (M : Nat)
    (qvalid : QuadMv V → Nat → Bool)
    (occludedK : V → V → V → V → (Nat → Nat) → (Nat → Nat) → Nat →
      OccludedState K Pre RayK → OccludedState K Pre RayK × Bool)
    (valid_i : Fin K → Bool) (pre : Pre) (ray : RayK) (quad : QuadMv V)
    (hidle : ∀ (a b c d : V) (g p : Nat → Nat) (i : Nat) (st : OccludedState K Pre RayK),
      (∀ k, st.valid0 k = false) → (occludedK a b c d g p i st).1 = st)
    (hret : ∀ (a b c d : V) (g p : Nat → Nat) (i : Nat) (st : OccludedState K Pre RayK),
      (occludedK a b c d g p i st).2 = true →
        ∀ k, (occludedK a b c d g p i st).1.valid0 k = false) :
    (occluded M qvalid occludedK valid_i pre ray quad).ret =
      (occludedNoBreak M qvalid occludedK valid_i pre ray quad).ret ∧
    (occluded M qvalid occludedK valid_i pre ray quad).pre =
      (occludedNoBreak M qvalid occludedK valid_i pre ray quad).pre ∧
    (occluded M qvalid occludedK valid_i pre ray quad).ray =
      (occludedNoBreak M qvalid occludedK valid_i pre ray quad).ray := by
  have h := occludedLanes_eq_noBreak qvalid occludedK quad hidle hret M 0
    { valid0 := valid_i, pre := pre, ray := ray } [] []
  simp [occluded, occludedNoBreak, h]

theorem C5_packet_occluded_break_is_optimisation_witness :
    ((∀ (a b c d : Unit) (g p : Nat → Nat) (i : Nat) (st : OccludedState 2 Unit Unit),
        (∀ k, st.valid0 k = false) → (Sample.hitK a b c d g p i st).1 = st) ∧
      (∀ (a b c d : Unit) (g p : Nat → Nat) (i : Nat) (st : OccludedState 2 Unit Unit),
        (Sample.hitK a b c d g p i st).2 = true →
          ∀ k, (Sample.hitK a b c d g p i st).1.valid0 k = false)) ∧
    ((occluded 4 Sample.allValid Sample.hitK Sample.lane0 () () Sample.quad).ret =
      (occludedNoBreak 4 Sample.allValid Sample.hitK Sample.lane0 () () Sample.quad).ret ∧
    (occluded 4 Sample.allValid Sample.hitK Sample.lane0 () () Sample.quad).pre =
      (occludedNoBreak 4 Sample.allValid Sample.hitK Sample.lane0 () () Sample.quad).pre ∧
    (occluded 4 Sample.allValid Sample.hitK Sample.lane0 () () Sample.quad).ray =
      (occludedNoBreak 4 Sample.allValid Sample.hitK Sample.lane0 () () Sample.quad).ray) :=
  ⟨⟨Sample.hitK_idle, Sample.hitK_ret⟩,
    C5_packet_occluded_break_is_optimisation 4 Sample.allValid Sample.hitK Sample.lane0 () ()
      Sample.quad Sample.hitK_idle Sample.hitK_ret⟩

end PacketClaims

section BothForms

variable {F P V Pre : Type} {K : Nat} {W PreK RayK : Type}

/-- C6: a primitive with zero valid quads is a no-op for the intersect operations. Packet
`intersect` with `quad.valid(0)` false makes no `intersectK` call and leaves the ray packet (and
the precalculations) unchanged, for every `valid_i`; array-of-rays `intersect` with `num = 0` and
a non-zero `valid` leaves every ray unchanged, calls the single-primitive `intersect` not at all,
and returns the mask `0`. -/
theorem C6_zero_valid_quads_noop [LinearOrder F] (M : Nat)
    (qvalid : QuadMv W → Nat → Bool)
    (intersectK : (Fin K → Bool) → W → W → W → W → (Nat → Nat) → (Nat → Nat) → Nat →
      PreK × RayK → PreK × RayK)
    (valid_i : Fin K → Bool) (preK : PreK) (rayK : RayK) (quad : QuadMv W)
    (preIntersect : Pre → Ray F P → (Nat → V) → (Nat → V) → (Nat → V) → (Nat → V) →
      (Nat → Nat) → (Nat → Nat) → Ray F P)
    (pre : Nat → Pre) (valid : Nat) (rays : Nat → Ray F P) (prim : Nat → QuadMv V)
    (hq : qvalid quad 0 = false) (hvalid : valid ≠ 0) :
    ((QuadMvIntersectorKMoellerTrumbore.intersect M qvalid intersectK valid_i preK rayK
        quad).calls = [] ∧
      (QuadMvIntersectorKMoellerTrumbore.intersect M qvalid intersectK valid_i preK rayK
        quad).ray = rayK ∧
      (QuadMvIntersectorKMoellerTrumbore.intersect M qvalid intersectK valid_i preK rayK
        quad).pre = preK) ∧
    ((QuadMvIntersector1MoellerTrumbore.intersectN preIntersect pre valid rays prim 0).rays =
        rays ∧
      (QuadMvIntersector1MoellerTrumbore.intersectN preIntersect pre valid rays prim 0).calls =
        [] ∧
      (QuadMvIntersector1MoellerTrumbore.intersectN preIntersect pre valid rays prim
        0).valid_isec = 0) := by
  constructor
  · cases M with
    | zero => exact ⟨rfl, rfl, rfl⟩
    | succ n =>
      simp [QuadMvIntersectorKMoellerTrumbore.intersect,
        QuadMvIntersectorKMoellerTrumbore.intersectLanes, hq]
  · obtain ⟨-, -, -, hcalls, hrays, hisec⟩ :=
      intersectN_spec preIntersect pre valid rays prim 0 hvalid
    refine ⟨?_, ?_, ?_⟩
    · funext j
      rw [hrays j]
      simp [QuadMvIntersector1MoellerTrumbore.foldPrims]
    · rw [hcalls]; simp
    · apply Nat.eq_of_testBit_eq
      intro j
      rw [hisec j]
      simp [QuadMvIntersector1MoellerTrumbore.foldPrims]

theorem C6_zero_valid_quads_noop_witness :
    (Sample.noneValid Sample.quad 0 = false ∧ (5 : Nat) ≠ 0) ∧
    ((QuadMvIntersectorKMoellerTrumbore.intersect 4 Sample.noneValid Sample.rejectK
        Sample.lane0 () 7 Sample.quad).calls = [] ∧
      (QuadMvIntersectorKMoellerTrumbore.intersect 4 Sample.noneValid Sample.rejectK
        Sample.lane0 () 7 Sample.quad).ray = 7 ∧
      (QuadMvIntersectorKMoellerTrumbore.intersect 4 Sample.noneValid Sample.rejectK
        Sample.lane0 () 7 Sample.quad).pre = ()) ∧
    ((QuadMvIntersector1MoellerTrumbore.intersectN Sample.closer Sample.pres 5 Sample.rays
        Sample.prims 0).rays = Sample.rays ∧
      (QuadMvIntersector1MoellerTrumbore.intersectN Sample.closer Sample.pres 5 Sample.rays
        Sample.prims 0).calls = [] ∧
      (QuadMvIntersector1MoellerTrumbore.intersectN Sample.closer Sample.pres 5 Sample.rays
        Sample.prims 0).valid_isec = 0) :=
  ⟨⟨by decide, by decide⟩,
    C6_zero_valid_quads_noop 4 Sample.noneValid Sample.rejectK Sample.lane0 () 7 Sample.quad
      Sample.closer Sample.pres 5 Sample.rays Sample.prims (by decide) (by decide)⟩

/-- C7: filter rejection leaves ray state unchanged. If the single-primitive `intersect` returns
the ray it is given unchanged, then for every non-zero `valid`, every ray array and every `num`
the array-of-rays `intersect` leaves every ray (`tfar` and hit payload) unchanged and returns the
mask `0`; and if `intersectK` returns the ray packet it is given unchanged, packet `intersect`
leaves the ray packet unchanged for every batch. -/
theorem C7_rejecting_epilog_leaves_rays_unchanged [LinearOrder F] (M : Nat)
    (qvalid : QuadMv W → Nat → Bool)
    (intersectK : (Fin K → Bool) → W → W → W → W → (Nat → Nat) → (Nat → Nat) → Nat →
      PreK × RayK → PreK × RayK)
    (valid_i : Fin K → Bool) (preK : PreK) (rayK : RayK) (quad : QuadMv W)
    (preIntersect : Pre → Ray F P → (Nat → V) → (Nat → V) → (Nat → V) → (Nat → V) →
      (Nat → Nat) → (Nat → Nat) → Ray F P)
    (pre : Nat → Pre) (valid : Nat) (rays : Nat → Ray F P) (prim : Nat → QuadMv V) (num : Nat)
    (hstep : ∀ (p : Pre) (r : Ray F P) (q : QuadMv V),
      QuadMvIntersector1MoellerTrumbore.intersect preIntersect p r q = r)
    (hK : ∀ (a b c d : W) (g p : Nat → Nat) (i : Nat) (s : PreK × RayK),
      (intersectK valid_i a b c d g p i s).2 = s.2)
    (hvalid : valid ≠ 0) :
    ((QuadMvIntersector1MoellerTrumbore.intersectN preIntersect pre valid rays prim num).rays =
        rays ∧
      (QuadMvIntersector1MoellerTrumbore.intersectN preIntersect pre valid rays prim
        num).valid_isec = 0) ∧
    (QuadMvIntersectorKMoellerTrumbore.intersect M qvalid intersectK valid_i preK rayK
      quad).ray = rayK := by
  refine ⟨?_, intersectLanes_ray qvalid intersectK valid_i quad hK M 0 _⟩
  obtain ⟨-, -, -, -, hrays, hisec⟩ :=
    intersectN_spec preIntersect pre valid rays prim num hvalid
  constructor
  · funext j
    rw [hrays j, foldPrims_fixed preIntersect hstep]
    simp
  · apply Nat.eq_of_testBit_eq
    intro j
    rw [hisec j, foldPrims_fixed preIntersect hstep]
    simp

theorem C7_rejecting_epilog_leaves_rays_unchanged_witness :
    ((∀ (p : Unit) (r : Ray Int Unit) (q : QuadMv Unit),
        QuadMvIntersector1MoellerTrumbore.intersect Sample.reject p r q = r) ∧
      (∀ (a b c d : Unit) (g p : Nat → Nat) (i : Nat) (s : Unit × Nat),
        (Sample.rejectK Sample.lane0 a b c d g p i s).2 = s.2) ∧
      (5 : Nat) ≠ 0) ∧
    (((QuadMvIntersector1MoellerTrumbore.intersectN Sample.reject Sample.pres 5 Sample.rays
        Sample.prims 3).rays = Sample.rays ∧
      (QuadMvIntersector1MoellerTrumbore.intersectN Sample.reject Sample.pres 5 Sample.rays
        Sample.prims 3).valid_isec = 0) ∧
    (QuadMvIntersectorKMoellerTrumbore.intersect 4 Sample.allValid Sample.rejectK
      Sample.lane0 () 7 Sample.quad).ray = 7) :=
  ⟨⟨fun _ _ _ => rfl, fun _ _ _ _ _ _ _ _ => rfl, by decide⟩,
    C7_rejecting_epilog_leaves_rays_unchanged 4 Sample.allValid Sample.rejectK Sample.lane0
      () 7 Sample.quad Sample.reject Sample.pres 5 Sample.rays Sample.prims 3
      (fun _ _ _ => rfl) (fun _ _ _ _ _ _ _ _ => rfl) (by decide)⟩

end BothForms

end embree
